import Mathlib

/-!
Verification of `FixedString<N>` from `src/include/fixed_string.h`.

A `FixedString<N>` is a `char Data[N]` buffer manipulated by whole-buffer
assignment.  We embed the buffer as a `List Nat` of bytes (the C `'\0'`
terminator is the byte `0`); a buffer of an instance of capacity `N` is a
list of length `N`.  C-string reads (`strlen`, `strcmp`, `std::string(char*)`,
`std::string_view(char*)`) stop at the first `0` byte, which we model with
`List.takeWhile (· != 0)`.  A `const char*` argument is modelled as
`Option (List Nat)`: `none` is the null pointer, `some c` a non-null pointer
whose bytes up to (excluding) its terminator are `c`.
-/

namespace FixedStr

/-- A byte of the buffer; the null terminator is `0`. -/
abbrev Byte := Nat

/-- The bytes a C-string read of the buffer yields: everything before the
first `0` byte.  Models `std::string_view(Data)`, `std::string(Data)` and the
scan done by `strlen` / `strcmp`. -/
def cstrOf (buf : List Byte) : List Byte := buf.takeWhile (fun b => b != 0)

/-- `length()`: `std::strlen(Data)`, the number of bytes before the first
terminator. -/
def strlen (buf : List Byte) : Nat := (cstrOf buf).length

/-- `empty()`: `Data[0] == '\0'`.  (Reading `Data[0]` needs `N > 0`; on the
out-of-contract empty buffer we answer `false`.) -/
def cEmpty (buf : List Byte) : Bool := buf.headD 1 == 0

/-- Core assignment `Assign(std::string_view sv)`, release semantics:
`copyLen = min(sv.size(), N-1)`; `memcpy(Data, sv.data(), copyLen)`;
`Data[copyLen] = '\0'`; bytes past `copyLen` are left as they were. -/
def Assign (N : Nat) (sv buf : List Byte) : List Byte :=
  let copyLen := min sv.length (N - 1)
  sv.take copyLen ++ 0 :: buf.drop (copyLen + 1)

/-- The conjunction of the two `assert`s guarding `Assign`:
`N > 0` and `sv.size() < N` (no truncation). -/
def assignOk (N : Nat) (sv : List Byte) : Prop := 0 < N ∧ sv.length < N

instance (N : Nat) (sv : List Byte) : Decidable (assignOk N sv) := by
  unfold assignOk; infer_instance

/-- `Assign(std::string_view)` under debug semantics: the assertions run
before any write, so a failing assertion halts with the buffer untouched
(`none`); otherwise the assignment completes as in release mode. -/
def AssignChecked (N : Nat) (sv buf : List Byte) : Option (List Byte) :=
  if assignOk N sv then some (Assign N sv buf) else none

/-- `Assign(const char* str)`: a null pointer sets `Data[0] = '\0'` and
returns (never dereferencing the pointer); a non-null pointer delegates to
`Assign(std::string_view(str))`, the view over its bytes up to the
terminator. -/
def AssignCStr (N : Nat) (str : Option (List Byte)) (buf : List Byte) : List Byte :=
  match str with
  | none => 0 :: buf.drop 1
  | some c => Assign N c buf

/-- `Assign` path of `FixedString(const std::string&)` / `operator=(const
std::string&)`: the code calls `Assign(str.c_str())`, and `c_str()` of an
`std::string` holding bytes `s` is a non-null pointer whose content up to the
terminator is `s` cut at its first `0` byte. -/
def AssignStdStr (N : Nat) (s buf : List Byte) : List Byte :=
  AssignCStr N (some (cstrOf s)) buf

/-- Default constructor: `memset(Data, 0, N)`. -/
def defaultCtor (N : Nat) : List Byte := List.replicate N 0

/-- Copy construction / copy assignment (`= default`): the full buffer is
copied byte for byte. -/
def copyCtor (buf : List Byte) : List Byte := buf

/-- `operator==(const FixedString<M>&)`: `strcmp(Data, other.Data) == 0`,
i.e. the byte sequences up to the terminators coincide. -/
def eqFS (a b : List Byte) : Bool := cstrOf a == cstrOf b

/-- `operator==(const char*)`: a null pointer is never equal; otherwise
`strcmp(Data, other) == 0`. -/
def eqCStr (a : List Byte) (other : Option (List Byte)) : Bool :=
  match other with
  | none => false
  | some c => cstrOf a == c

/-- `operator==(std::string_view)`: `std::string_view(Data) == other`,
an exact byte-sequence comparison of the view of the buffer with `other`. -/
def eqSV (a : List Byte) (other : List Byte) : Bool := cstrOf a == other

/-- `operator!=(const char*)`: negation of equality. -/
def neCStr (a : List Byte) (other : Option (List Byte)) : Bool := !(eqCStr a other)

/-- `operator!=(std::string_view)`: negation of equality. -/
def neSV (a : List Byte) (other : List Byte) : Bool := !(eqSV a other)

/-- `operator!=(const FixedString<M>&)`: negation of equality. -/
def neFS (a b : List Byte) : Bool := !(eqFS a b)

/-- `ToString()`: `std::string(Data)`, the buffer's bytes up to the
terminator, as an owned string. -/
def toString (buf : List Byte) : List Byte := cstrOf buf

/-- `operator+(std::string_view, const FixedString&)`:
`std::string(lhs) + rhs.Data`. -/
def addSvFs (lhs fs : List Byte) : List Byte := lhs ++ cstrOf fs

/-- `operator+(const FixedString&, std::string_view)`:
`std::string(lhs.Data) + std::string(rhs)`. -/
def addFsSv (fs rhs : List Byte) : List Byte := cstrOf fs ++ rhs

/-- `operator+(const FixedString&, const char*)`:
`std::string(lhs.Data) + (rhs ? rhs : "")`. -/
def addFsCStr (fs : List Byte) (rhs : Option (List Byte)) : List Byte :=
  cstrOf fs ++ (match rhs with | none => [] | some c => c)

/-- `operator+(const char*, const FixedString&)`:
`std::string(lhs ? lhs : "") + rhs.Data`. -/
def addCStrFs (lhs : Option (List Byte)) (fs : List Byte) : List Byte :=
  (match lhs with | none => [] | some c => c) ++ cstrOf fs

/-- `operator+(const FixedString&, const FixedString<M>&)`:
`std::string(lhs.Data) + rhs.Data`. -/
def addFsFs (a b : List Byte) : List Byte := cstrOf a ++ cstrOf b

/-- The type's invariant for an instance of capacity `N` (spec I1/I2): the
buffer is `N` bytes, contains a terminator, and the logical content length is
at most `N - 1`. -/
def Inv (N : Nat) (buf : List Byte) : Prop :=
  buf.length = N ∧ 0 ∈ buf ∧ strlen buf ≤ N - 1

instance (N : Nat) (buf : List Byte) : Decidable (Inv N buf) := by
  unfold Inv; infer_instance

/-! ### Helper lemmas about `cstrOf`, `strlen` and `Assign` -/

theorem cstrOf_nil : cstrOf [] = [] := rfl

theorem cstrOf_cons_zero (ys : List Byte) : cstrOf (0 :: ys) = [] := rfl

theorem cstrOf_append_zero (xs ys : List Byte) :
    cstrOf (xs ++ 0 :: ys) = cstrOf xs := by
  induction xs with
  | nil => rfl
  | cons x xs ih =>
    by_cases hx : x = 0
    · subst hx
      simp [cstrOf, List.takeWhile_cons]
    · simpa [cstrOf, List.takeWhile_cons, hx] using ih

theorem cstrOf_of_no_zero {sv : List Byte} (h : ∀ b ∈ sv, b ≠ 0) :
    cstrOf sv = sv := by
  unfold cstrOf
  rw [List.takeWhile_eq_self_iff]
  intro x hx
  simpa using h x hx

theorem mem_cstrOf_ne_zero {b : Byte} {l : List Byte} (h : b ∈ cstrOf l) :
    b ≠ 0 := by
  have := List.mem_takeWhile_imp h
  simpa using this

theorem cstrOf_idem (l : List Byte) : cstrOf (cstrOf l) = cstrOf l :=
  cstrOf_of_no_zero (fun _ hb => mem_cstrOf_ne_zero hb)

theorem length_cstrOf_le (l : List Byte) : (cstrOf l).length ≤ l.length :=
  (List.takeWhile_prefix _).sublist.length_le

theorem Assign_length {N : Nat} (hN : 0 < N) (sv : List Byte) {buf : List Byte}
    (hb : buf.length = N) : (Assign N sv buf).length = N := by
  have hc : min sv.length (N - 1) ≤ N - 1 := Nat.min_le_right _ _
  simp only [Assign, List.length_append, List.length_take, List.length_cons,
    List.length_drop, hb]
  omega

theorem cstrOf_Assign (N : Nat) (sv buf : List Byte) :
    cstrOf (Assign N sv buf) = cstrOf (sv.take (min sv.length (N - 1))) := by
  unfold Assign
  exact cstrOf_append_zero _ _

/-! ### Claim theorems -/

/-- C1 (counterexample): as stated the claim quantifies over every
borrowed-view input, but for the view `[0, 5]` assigned into a capacity-2
instance the first copied byte is itself a terminator, so `length()` is `0`,
not `N - 1 = 1`. -/
theorem C1_counterexample :
    2 ≤ ([0, 5] : List Byte).length ∧ strlen (Assign 2 [0, 5] [7, 7]) ≠ 2 - 1 := by
  decide

/-- C1 (amended): for `N > 0` and a view of length `L ≥ N`, release-mode
`Assign` keeps the buffer at `N` bytes (no write past it), copies exactly the
first `N-1` input bytes, writes the terminator at offset `N-1`, and under
debug semantics the assertion halts before the assignment completes; when
those first `N-1` bytes contain no `0` byte, `length() = N-1` and the logical
content equals them. -/
theorem C1_truncating_assign (N : Nat) (sv buf : List Byte)
    (hN : 0 < N) (hb : buf.length = N) (hL : N ≤ sv.length) :
    (Assign N sv buf).length = N ∧
    (Assign N sv buf).take (N - 1) = sv.take (N - 1) ∧
    (Assign N sv buf)[N - 1]? = some 0 ∧
    AssignChecked N sv buf = none ∧
    ((∀ b ∈ sv.take (N - 1), b ≠ 0) →
      strlen (Assign N sv buf) = N - 1 ∧
      cstrOf (Assign N sv buf) = sv.take (N - 1)) := by
  have hc : min sv.length (N - 1) = N - 1 := Nat.min_eq_right (by omega)
  have hxs : (sv.take (N - 1)).length = N - 1 := by
    rw [List.length_take]; omega
  refine ⟨Assign_length hN sv hb, ?_, ?_, ?_, ?_⟩
  · show (sv.take (min sv.length (N - 1)) ++ 0 :: buf.drop (min sv.length (N - 1) + 1)).take (N - 1) = sv.take (N - 1)
    rw [hc]
    exact List.take_left' hxs
  · show (sv.take (min sv.length (N - 1)) ++ 0 :: buf.drop (min sv.length (N - 1) + 1))[N - 1]? = some 0
    rw [hc, List.getElem?_append_right (le_of_eq hxs), hxs, Nat.sub_self]
    exact List.getElem?_cons_zero
  · simp only [AssignChecked, assignOk, ite_eq_right_iff]
    intro h
    omega
  · intro hnz
    have hcontent : cstrOf (Assign N sv buf) = sv.take (N - 1) := by
      rw [cstrOf_Assign, hc]
      exact cstrOf_of_no_zero hnz
    exact ⟨by rw [strlen, hcontent, hxs], hcontent⟩

/-- C1 witness: the amended claim at `N = 2`, input `[1, 2, 3]`. -/
theorem C1_witness :
    (0 < 2 ∧ ([8, 8] : List Byte).length = 2 ∧ 2 ≤ ([1, 2, 3] : List Byte).length) ∧
    ((Assign 2 [1, 2, 3] [8, 8]).length = 2 ∧
     (Assign 2 [1, 2, 3] [8, 8]).take 1 = List.take 1 [1, 2, 3] ∧
     (Assign 2 [1, 2, 3] [8, 8])[1]? = some 0 ∧
     AssignChecked 2 [1, 2, 3] [8, 8] = none ∧
     ((∀ b ∈ List.take 1 [1, 2, 3], b ≠ 0) →
       strlen (Assign 2 [1, 2, 3] [8, 8]) = 1 ∧
       cstrOf (Assign 2 [1, 2, 3] [8, 8]) = List.take 1 [1, 2, 3])) :=
  ⟨⟨by decide, by decide, by decide⟩,
    C1_truncating_assign 2 [1, 2, 3] [8, 8] (by decide) (by decide) (by decide)⟩

/-- C2 (counterexample): as stated the claim covers arbitrary input bytes,
but assigning the one-byte view `[0]` into a capacity-2 instance leaves
`length() = 0`, not `L = 1`, because `length()` is `strlen` and stops at the
copied `0` byte. -/
theorem C2_counterexample :
    ([0] : List Byte).length < 2 ∧ strlen (Assign 2 [0] [7, 7]) ≠ 1 := by
  decide

/-- C2 (amended): for `N > 0` and an input view of length `L < N` none of
whose bytes is `0`, after `Assign` the instance has `length() = L` and its
logical content equals the input exactly. -/
theorem C2_exact_assign (N : Nat) (sv buf : List Byte)
    (hN : 0 < N) (hb : buf.length = N) (hL : sv.length < N)
    (hnz : ∀ b ∈ sv, b ≠ 0) :
    strlen (Assign N sv buf) = sv.length ∧ cstrOf (Assign N sv buf) = sv := by
  have hc : min sv.length (N - 1) = sv.length := Nat.min_eq_left (by omega)
  have hcontent : cstrOf (Assign N sv buf) = sv := by
    rw [cstrOf_Assign, hc, List.take_length]
    exact cstrOf_of_no_zero hnz
  exact ⟨by rw [strlen, hcontent], hcontent⟩

/-- C2 witness: the amended claim at `N = 3`, input `[1, 2]`. -/
theorem C2_witness :
    (0 < 3 ∧ ([9, 9, 9] : List Byte).length = 3 ∧ ([1, 2] : List Byte).length < 3 ∧
      (∀ b ∈ ([1, 2] : List Byte), b ≠ 0)) ∧
    (strlen (Assign 3 [1, 2] [9, 9, 9]) = 2 ∧ cstrOf (Assign 3 [1, 2] [9, 9, 9]) = [1, 2]) :=
  ⟨⟨by decide, by decide, by decide, by decide⟩,
    C2_exact_assign 3 [1, 2] [9, 9, 9] (by decide) (by decide) (by decide) (by decide)⟩

/-- C6: assigning from a null C-string pointer (also the construction path)
touches no pointed-to byte — the null branch writes only `Data[0] = 0` — is
never an error, and afterwards `empty() = true` and `length() = 0`. -/
theorem C6_null_assign_empty (N : Nat) (buf : List Byte) :
    cEmpty (AssignCStr N none buf) = true ∧ strlen (AssignCStr N none buf) = 0 := by
  exact ⟨rfl, rfl⟩

/-- C8: every `operator+` overload yields the concatenation of its two
operands' logical contents as an owned string: both fixed-string sides read
as `cstrOf` of the buffer, a view side contributes its exact bytes, and a
null pointer side contributes nothing (it is matched against before any
dereference).  Concretely, `"ab" + "cd" = "abcd"`. -/
theorem C8_concat (a b sv c : List Byte) :
    addFsFs a b = cstrOf a ++ cstrOf b ∧
    addFsSv a sv = cstrOf a ++ sv ∧
    addSvFs sv a = sv ++ cstrOf a ∧
    addFsCStr a (some c) = cstrOf a ++ c ∧
    addCStrFs (some c) a = c ++ cstrOf a ∧
    addFsCStr a none = cstrOf a ∧
    addCStrFs none a = cstrOf a ∧
    addFsSv (Assign 8 [97, 98] (List.replicate 8 9)) [99, 100] = [97, 98, 99, 100] := by
  refine ⟨rfl, rfl, rfl, rfl, rfl, ?_, rfl, by decide⟩
  simp [addFsCStr]

/-- C3: every producing or mutating operation — default construction,
`Assign` from a view, from a (possibly null) C pointer, from an
`std::string`, and copy construction/assignment — establishes or preserves
the invariant: the `N`-byte buffer contains a terminator and the logical
content length is at most `N - 1`. -/
theorem C3_invariant (N : Nat) (sv s buf old : List Byte) (str : Option (List Byte))
    (hN : 0 < N) (hb : buf.length = N) (hold : Inv N old) :
    Inv N (defaultCtor N) ∧
    Inv N (Assign N sv buf) ∧
    Inv N (AssignCStr N str buf) ∧
    Inv N (AssignStdStr N s buf) ∧
    Inv N (copyCtor old) := by
  have hassign : ∀ v : List Byte, Inv N (Assign N v buf) := by
    intro v
    refine ⟨Assign_length hN v hb, ?_, ?_⟩
    · exact List.mem_append_right _ (List.mem_cons_self _ _)
    · rw [strlen, cstrOf_Assign]
      have h1 := length_cstrOf_le (v.take (min v.length (N - 1)))
      have h2 : (v.take (min v.length (N - 1))).length ≤ N - 1 := by
        rw [List.length_take]; omega
      omega
  have hnull : Inv N (AssignCStr N none buf) := by
    refine ⟨?_, List.mem_cons_self _ _, ?_⟩
    · show (0 :: buf.drop 1).length = N
      simp only [List.length_cons, List.length_drop, hb]
      omega
    · show strlen (0 :: buf.drop 1) ≤ N - 1
      simp [strlen, cstrOf_cons_zero]
  refine ⟨?_, hassign sv, ?_, hassign (cstrOf s), hold⟩
  · refine ⟨List.length_replicate _ _, ?_, ?_⟩
    · exact List.mem_replicate.mpr ⟨by omega, rfl⟩
    · cases N with
      | zero => omega
      | succ n =>
        have : cstrOf (defaultCtor (n + 1)) = [] := by
          rw [defaultCtor, List.replicate_succ]
          exact cstrOf_cons_zero _
        simp [strlen, this]
  · cases str with
    | none => exact hnull
    | some c => exact hassign c

/-- C3 witness: the invariant claims at `N = 2` for concrete buffers. -/
theorem C3_witness :
    (0 < 2 ∧ ([5, 5] : List Byte).length = 2 ∧ Inv 2 [1, 0]) ∧
    (Inv 2 (defaultCtor 2) ∧
     Inv 2 (Assign 2 [3] [5, 5]) ∧
     Inv 2 (AssignCStr 2 none [5, 5]) ∧
     Inv 2 (AssignStdStr 2 [3, 0, 4] [5, 5]) ∧
     Inv 2 (copyCtor [1, 0])) :=
  ⟨⟨by decide, by decide, by decide⟩,
    C3_invariant 2 [3] [3, 0, 4] [5, 5] [1, 0] none (by decide) (by decide) (by decide)⟩

/-- C4: equality of any instance against a null pointer is `false` and the
corresponding inequality `true`; an empty instance (first byte is the
terminator) is moreover equal to the empty borrowed view and to the empty
C-string literal. -/
theorem C4_null_asymmetry (buf : List Byte) (he : cEmpty buf = true) :
    (∀ b : List Byte, eqCStr b none = false ∧ neCStr b none = true) ∧
    eqSV buf [] = true ∧ eqCStr buf (some []) = true := by
  refine ⟨fun b => ⟨rfl, rfl⟩, ?_, ?_⟩ <;>
  · cases buf with
    | nil => simp [cEmpty] at he
    | cons x l =>
      have hx : x = 0 := by simpa [cEmpty] using he
      subst hx
      simp [eqSV, eqCStr, cstrOf_cons_zero]

/-- C4 witness: the claim at the empty capacity-3 instance. -/
theorem C4_witness :
    (cEmpty [0, 7, 7] = true) ∧
    ((∀ b : List Byte, eqCStr b none = false ∧ neCStr b none = true) ∧
     eqSV [0, 7, 7] [] = true ∧ eqCStr [0, 7, 7] (some []) = true) :=
  ⟨by decide, C4_null_asymmetry [0, 7, 7] (by decide)⟩

/-- C5: equality between instances of capacities `N` and `M` compares only
the logical contents, never the buffer sizes; concretely, `"hi"` stored at
capacities 8 and 32 compares equal, while `"hi"` and `"ho"` at the same
capacity compare unequal. -/
theorem C5_content_equality :
    (∀ (N M : Nat) (a b : List Byte), a.length = N → b.length = M →
      (eqFS a b = true ↔ cstrOf a = cstrOf b)) ∧
    eqFS (Assign 8 [104, 105] (List.replicate 8 9))
      (Assign 32 [104, 105] (List.replicate 32 9)) = true ∧
    eqFS (Assign 8 [104, 105] (List.replicate 8 9))
      (Assign 8 [104, 111] (List.replicate 8 9)) = false := by
  refine ⟨fun N M a b _ _ => ?_, by decide, by decide⟩
  simp [eqFS]

/-- C5 witness: the content-equality characterisation at concrete buffers of
capacities 1 and 2. -/
theorem C5_witness :
    (([4] : List Byte).length = 1 ∧ ([4, 0] : List Byte).length = 2) ∧
    (eqFS [4] [4, 0] = true ↔ cstrOf [4] = cstrOf [4, 0]) :=
  ⟨⟨by decide, by decide⟩, C5_content_equality.1 1 2 [4] [4, 0] (by decide) (by decide)⟩

/-- C7 (counterexample): the `std::string` overload goes through `c_str()`,
so for a string with an embedded `0` byte it assigns only the bytes before
that `0`: for `s = [1, 0, 2]` at capacity 4 the resulting buffer differs from
the one produced by `Assign` on the full three-byte view. -/
theorem C7_counterexample :
    AssignStdStr 4 [1, 0, 2] [0, 0, 0, 0] ≠ Assign 4 [1, 0, 2] [0, 0, 0, 0] := by
  decide

/-- C7 (amended): for an `std::string` containing no `0` byte, assignment
via the `std::string` overload leaves the instance in the same state as
`Assign` on the view over its full bytes (for a string with embedded `0`
bytes, the overload only assigns the bytes before the first `0`); assignment
from a non-null C pointer is identical to `Assign` on the view over its
bytes up to the terminator, as stated. -/
theorem C7_paths_agree :
    (∀ (N : Nat) (s buf : List Byte), (∀ b ∈ s, b ≠ 0) →
      AssignStdStr N s buf = Assign N s buf) ∧
    (∀ (N : Nat) (c buf : List Byte), AssignCStr N (some c) buf = Assign N c buf) := by
  refine ⟨fun N s buf hnz => ?_, fun N c buf => rfl⟩
  show AssignCStr N (some (cstrOf s)) buf = Assign N s buf
  rw [cstrOf_of_no_zero hnz]
  rfl

/-- C7 witness: both equivalences at `N = 3`, `s = [1, 2]`. -/
theorem C7_witness :
    (∀ b ∈ ([1, 2] : List Byte), b ≠ 0) ∧
    AssignStdStr 3 [1, 2] [6, 6, 6] = Assign 3 [1, 2] [6, 6, 6] :=
  ⟨by decide, C7_paths_agree.1 3 [1, 2] [6, 6, 6] (by decide)⟩

/-- C9: `Assign` from a view of length `L` writes exactly bytes
`0 .. min(L, N-1)` of the buffer — the copied prefix of the input plus the
terminator at offset `min(L, N-1)` — leaves the buffer length at `N`, and
every byte at an index past the written terminator keeps its previous
value. -/
theorem C9_frame (N : Nat) (sv buf : List Byte) (hN : 0 < N) (hb : buf.length = N) :
    (Assign N sv buf).length = N ∧
    (∀ i, i < min sv.length (N - 1) → (Assign N sv buf)[i]? = sv[i]?) ∧
    (Assign N sv buf)[min sv.length (N - 1)]? = some 0 ∧
    (∀ i, min sv.length (N - 1) < i → (Assign N sv buf)[i]? = buf[i]?) := by
  have hc : min sv.length (N - 1) ≤ sv.length := Nat.min_le_left _ _
  have hxs : (sv.take (min sv.length (N - 1))).length = min sv.length (N - 1) := by
    rw [List.length_take]; omega
  refine ⟨Assign_length hN sv hb, ?_, ?_, ?_⟩
  · intro i hi
    show (sv.take (min sv.length (N - 1)) ++ 0 :: buf.drop (min sv.length (N - 1) + 1))[i]? = sv[i]?
    rw [List.getElem?_append_left (by omega), List.getElem?_take_of_lt hi]
  · show (sv.take (min sv.length (N - 1)) ++ 0 :: buf.drop (min sv.length (N - 1) + 1))[min sv.length (N - 1)]? = some 0
    rw [List.getElem?_append_right (le_of_eq hxs), hxs, Nat.sub_self]
    exact List.getElem?_cons_zero
  · intro i hi
    show (sv.take (min sv.length (N - 1)) ++ 0 :: buf.drop (min sv.length (N - 1) + 1))[i]? = buf[i]?
    rw [List.getElem?_append_right (by omega), hxs]
    have hsub : i - min sv.length (N - 1) = (i - min sv.length (N - 1) - 1) + 1 := by omega
    rw [hsub, List.getElem?_cons_succ, List.getElem?_drop]
    congr 1
    omega

/-- C9 witness: the frame property at `N = 3`, view `[1, 2, 3, 4]`. -/
theorem C9_witness :
    (0 < 3 ∧ ([7, 8, 9] : List Byte).length = 3) ∧
    ((Assign 3 [1, 2, 3, 4] [7, 8, 9]).length = 3 ∧
     (∀ i, i < min ([1, 2, 3, 4] : List Byte).length 2 →
       (Assign 3 [1, 2, 3, 4] [7, 8, 9])[i]? = ([1, 2, 3, 4] : List Byte)[i]?) ∧
     (Assign 3 [1, 2, 3, 4] [7, 8, 9])[min ([1, 2, 3, 4] : List Byte).length 2]? = some 0 ∧
     (∀ i, min ([1, 2, 3, 4] : List Byte).length 2 < i →
       (Assign 3 [1, 2, 3, 4] [7, 8, 9])[i]? = ([7, 8, 9] : List Byte)[i]?)) :=
  ⟨⟨by decide, by decide⟩, C9_frame 3 [1, 2, 3, 4] [7, 8, 9] (by decide) (by decide)⟩

/-- C10: for any instance satisfying the invariant, constructing a new
instance of the same capacity from `ToString()` of the original never trips
the truncation assertion, and the new instance compares equal to the
original (same logical content), whatever bytes the new buffer held before
construction. -/
theorem C10_roundtrip (N : Nat) (s junk : List Byte)
    (hN : 0 < N) (hInv : Inv N s) (hj : junk.length = N) :
    assignOk N (toString s) ∧
    eqFS (AssignStdStr N (toString s) junk) s = true := by
  obtain ⟨hlen, hmem, hstr⟩ := hInv
  have hts : (toString s).length < N := by
    rw [toString]
    have := hstr
    rw [strlen] at this
    omega
  refine ⟨⟨hN, hts⟩, ?_⟩
  have hpath : AssignStdStr N (toString s) junk = Assign N (cstrOf s) junk := by
    show AssignCStr N (some (cstrOf (cstrOf s))) junk = Assign N (cstrOf s) junk
    rw [cstrOf_idem]
    rfl
  rw [hpath, eqFS, cstrOf_Assign]
  have hmin : min (cstrOf s).length (N - 1) = (cstrOf s).length := by
    rw [strlen] at hstr
    omega
  rw [hmin, List.take_length, cstrOf_idem]
  exact beq_self_eq_true _

/-- C10 witness: the round trip at `N = 3` for the instance `[1, 0, 9]`. -/
theorem C10_witness :
    (0 < 3 ∧ Inv 3 [1, 0, 9] ∧ ([7, 7, 7] : List Byte).length = 3) ∧
    (assignOk 3 (toString [1, 0, 9]) ∧
     eqFS (AssignStdStr 3 (toString [1, 0, 9]) [7, 7, 7]) [1, 0, 9] = true) :=
  ⟨⟨by decide, by decide, by decide⟩,
    C10_roundtrip 3 [1, 0, 9] [7, 7, 7] (by decide) (by decide) (by decide)⟩

end FixedStr
